import Mathlib

set_option autoImplicit false

/-!
Shallow embedding of `yellowstone-grpc-tools/src/scylladb/consumer/shard_iterator.rs`.

Scope of the embedding:
* the `ShardIterator` state machine (`try_next`), its residual filter
  (`filter_row`), and the query-forging code
  (`forge_account_upadate_event_query`, `format_as_scylla_hexstring`,
  `GET_NEW_TRANSACTION_EVENT`, `LOG_PROJECTION`, `LOG_PRIMARY_KEY_CONDITION`);
* I/O (the scylla session, prepared statements, tokio tasks) is not modelled:
  each `oneshot::Receiver` held by a state is opaque to `try_next` until it is
  polled, so a state keeps only the offset its background operation was
  dispatched with, and the outcome of polling the receiver
  (`TryRecvError::Empty`, `TryRecvError::Closed`, or a delivered value) is an
  input of each `try_next` call;
* `SHARD_OFFSET_MODULO`, `ShardOffset`, `ShardPeriod` and `BlockchainEvent`
  come from `crate::scylladb::types`, a module of this repository that is not
  part of the excerpt.  The modulo is therefore an explicit parameter
  (the spec fixes no value; its worked scenario uses 80), offsets and periods
  are `Int` (they are `i64` in the source; Rust `i64` division truncates
  toward zero, which agrees with `Int` division on the non-negative operands
  the theorems quantify over), and the event record carries exactly the
  fields `shard_iterator.rs` reads: `offset`, `event_type`, `account_keys`.
  Bytes (`u8`) are `Nat` values; theorems about hex rendering restrict them
  to `< 256` where the rendering width matters.
-/

namespace Yellowstone

/-- Event-type tag of a stored row (from `types.rs`, values 0 and 1 as used in
the queries: `event_type = 0` is an account update, `event_type = 1` a new
transaction). -/
inductive BlockchainEventType
  | accountUpdate
  | newTransaction
deriving DecidableEq, Repr

/-- One stored log row, restricted to the fields that
`shard_iterator.rs` actually reads.  `account_keys` is optional in the
storage schema (`Option<Vec<Vec<u8>>>`). -/
structure BlockchainEvent where
  offset : Int
  event_type : BlockchainEventType
  account_keys : Option (List (List Nat))
deriving DecidableEq, Repr

/-- The `ShardFilter` struct (field names kept verbatim, including the
`account_pubkyes` spelling of the source). -/
structure ShardFilter where
  tx_account_keys : List (List Nat) := []
  account_owners : List (List Nat) := []
  account_pubkyes : List (List Nat) := []
deriving DecidableEq, Repr

/-- The `ShardIteratorState` enum.  A state that holds a
`oneshot::Receiver` keeps only the offset its background operation was
dispatched with; what the receiver eventually yields is an input of the
`try_next` call that polls it (see `PollInput`). -/
inductive ShardIteratorState
  | Empty (last_offset : Int)
  | Loading (last_offset : Int)
  | Loaded (last_offset : Int) (micro_batch : List BlockchainEvent)
  | ConfirmingPeriod (last_offset : Int)
  | Streaming (last_offset : Int) (micro_batch : List BlockchainEvent)
  | WaitingEndOfPeriod (last_offset : Int)
deriving DecidableEq, Repr

/-- The `last_offset` accessor of `ShardIteratorState`. -/
def ShardIteratorState.last_offset : ShardIteratorState → Int
  | .Empty offset => offset
  | .Loading offset => offset
  | .Loaded offset _ => offset
  | .ConfirmingPeriod offset => offset
  | .Streaming offset _ => offset
  | .WaitingEndOfPeriod offset => offset

/-- The `is_empty` accessor of `ShardIteratorState`. -/
def ShardIteratorState.is_empty : ShardIteratorState → Bool
  | .Empty _ => true
  | _ => false

/-- The mutable part of the `ShardIterator` struct: the FSM state, the last
confirmed period and the (immutable after construction) residual filter.
The session and the two prepared statements are I/O handles and are not
modelled. -/
structure ShardIterator where
  inner : ShardIteratorState
  last_period_confirmed : Int
  filter : ShardFilter
deriving DecidableEq, Repr

/-- `ShardIterator::new` (minus the statement-preparation I/O): initial state
`Empty(offset)` and `last_period_confirmed = offset / SHARD_OFFSET_MODULO - 1`.
`modulo` stands for `SHARD_OFFSET_MODULO`. -/
def ShardIterator.new (modulo offset : Int) (filter : Option ShardFilter) :
    ShardIterator :=
  { inner := ShardIteratorState.Empty offset
    last_period_confirmed := offset / modulo - 1
    filter := filter.getD {} }

/-- `ShardIterator::filter_row`: the residual filter, a direct transcription
of the `Option`/iterator combinator chain of the source. -/
def filter_row (filter : ShardFilter) (row : BlockchainEvent) :
    Option BlockchainEvent :=
  if row.event_type = BlockchainEventType.newTransaction then
    let elligible_acc_keys := filter.tx_account_keys
    if !elligible_acc_keys.isEmpty then
      let is_row_elligible :=
        (((row.account_keys.filter (fun actual_keys =>
              (actual_keys.find? (fun account_key =>
                elligible_acc_keys.contains account_key)).isSome)).map
            (fun _ => true)).getD false)
      if !is_row_elligible then none else some row
    else some row
  else some row

/-- Outcome of polling the `oneshot` receiver a `try_next` call looks at:
`pending` is `Err(TryRecvError::Empty)`, `closed` is
`Err(TryRecvError::Closed)` (the sender was dropped before sending),
`batch` is `Ok` on a micro-batch fetch receiver, `committed` is `Ok` on a
period-commit-check receiver.  States that hold no receiver ignore the
input; a `committed` input in `Loading` (or a `batch` input in
`ConfirmingPeriod`/`WaitingEndOfPeriod`) is ill-typed for the receiver the
state holds, can never occur in the source, and is treated as still
pending. -/
inductive PollInput
  | pending
  | closed
  | batch (micro_batch : List BlockchainEvent)
  | committed (period_committed : Bool)
deriving DecidableEq, Repr

/-- Transition core of `ShardIterator::try_next`: computes
`(next_state, last_period_confirmed, maybe_to_return)` or the `bail!` error,
exactly following the `match current_state` of the source.  Dispatching a
background operation is visible as entering the state that holds its
receiver (`Loading`, `ConfirmingPeriod`, `WaitingEndOfPeriod`). -/
def try_next_transition (modulo : Int) (last_period_confirmed : Int)
    (state : ShardIteratorState) (input : PollInput) :
    Except String (ShardIteratorState × Int × Option BlockchainEvent) :=
  match state with
  | .Empty last_offset =>
    .ok (.Loading last_offset, last_period_confirmed, none)
  | .Loading last_offset =>
    match input with
    | .pending => .ok (.Loading last_offset, last_period_confirmed, none)
    | .closed => .error "failed to receive micro batch"
    | .batch micro_batch =>
      .ok (.Loaded last_offset micro_batch, last_period_confirmed, none)
    | .committed _ => .ok (.Loading last_offset, last_period_confirmed, none)
  | .Loaded last_offset micro_batch =>
    match micro_batch with
    | row :: rest =>
      .ok (.Streaming row.offset rest, last_period_confirmed, some row)
    | [] =>
      let curr_period := last_offset / modulo
      if curr_period ≤ last_period_confirmed then
        let last_period_offset := (curr_period + 1) * modulo - 1
        .ok (.Empty last_period_offset, last_period_confirmed, none)
      else
        .ok (.ConfirmingPeriod last_offset, last_period_confirmed, none)
  | .ConfirmingPeriod last_offset =>
    match input with
    | .pending =>
      .ok (.ConfirmingPeriod last_offset, last_period_confirmed, none)
    | .closed => .error "fail"
    | .committed period_committed =>
      if period_committed then
        .ok (.Empty last_offset, last_offset / modulo, none)
      else
        .ok (.Empty last_offset, last_period_confirmed, none)
    | .batch _ =>
      .ok (.ConfirmingPeriod last_offset, last_period_confirmed, none)
  | .Streaming last_offset micro_batch =>
    match micro_batch with
    | row :: rest =>
      .ok (.Streaming row.offset rest, last_period_confirmed, some row)
    | [] =>
      if (last_offset + 1) % modulo = 0 then
        .ok (.WaitingEndOfPeriod last_offset, last_period_confirmed, none)
      else
        .ok (.Empty last_offset, last_period_confirmed, none)
  | .WaitingEndOfPeriod last_offset =>
    match input with
    | .pending =>
      .ok (.WaitingEndOfPeriod last_offset, last_period_confirmed, none)
    | .closed => .error "fail"
    | .committed period_committed =>
      if period_committed then
        .ok (.Empty last_offset, last_offset / modulo, none)
      else
        .ok (.WaitingEndOfPeriod last_offset, last_period_confirmed, none)
    | .batch _ =>
      .ok (.WaitingEndOfPeriod last_offset, last_period_confirmed, none)

/-- `ShardIterator::try_next`: runs the transition core, installs the next
state, and returns `maybe_to_return.and_then(|row| self.filter_row(row))`. -/
def ShardIterator.try_next (self : ShardIterator) (modulo : Int)
    (input : PollInput) :
    Except String (ShardIterator × Option BlockchainEvent) :=
  match try_next_transition modulo self.last_period_confirmed self.inner input with
  | .error e => .error e
  | .ok (next_state, lpc, maybe_to_return) =>
    .ok ({ self with inner := next_state, last_period_confirmed := lpc },
         maybe_to_return.bind (fun row => filter_row self.filter row))

/-- `ShardIterator::last_offset`. -/
def ShardIterator.last_offset (self : ShardIterator) : Int :=
  self.inner.last_offset

/-- `MICRO_BATCH_SIZE` (a `usize` in the source). -/
def MICRO_BATCH_SIZE : Nat := 40

/-- The raw string `GET_NEW_TRANSACTION_EVENT`, transcribed byte for byte
(including the leading and trailing newline of the `r###"..."###` literal). -/
def GET_NEW_TRANSACTION_EVENT : String := "
    SELECT
        shard_id,
        period,
        producer_id,
        offset,
        slot,
        event_type,

        pubkey,
        lamports,
        owner,
        executable,
        rent_epoch,
        write_version,
        data,
        txn_signature,

        signature,
        signatures,
        num_required_signatures,
        num_readonly_signed_accounts,
        num_readonly_unsigned_accounts,
        account_keys,
        recent_blockhash,
        instructions,
        versioned,
        address_table_lookups,
        meta,
        is_vote,
        tx_index
    FROM log
    WHERE producer_id = ? and shard_id = ? and offset > ? and period = ?
    and event_type = 1
    ORDER BY offset ASC
    ALLOW FILTERING
"

/-- The raw string `LOG_PRIMARY_KEY_CONDITION`. -/
def LOG_PRIMARY_KEY_CONDITION : String := "
    producer_id = ? and shard_id = ? and offset > ? and period = ?
"

/-- The raw string `LOG_PROJECTION`. -/
def LOG_PROJECTION : String := "
    shard_id,
    period,
    producer_id,
    offset,
    slot,
    event_type,
    pubkey,
    lamports,
    owner,
    executable,
    rent_epoch,
    write_version,
    data,
    txn_signature,
    signature,
    signatures,
    num_required_signatures,
    num_readonly_signed_accounts,
    num_readonly_unsigned_accounts,
    account_keys,
    recent_blockhash,
    instructions,
    versioned,
    address_table_lookups,
    meta,
    is_vote,
    tx_index
"

/-- Rust's `Vec<String>::join(sep)`. -/
def joinWith (sep : String) : List String → String
  | [] => ""
  | [s] => s
  | s :: rest => s ++ sep ++ joinWith sep rest

/-- `format_as_scylla_hexstring`: renders a byte string as `0x` followed by
two lowercase hex digits per byte (`format("{:02x}", b)` prints exactly two
digits for every `u8`; the `Nat`-typed bytes here therefore stand for values
below 256).  The source panics on an empty byte slice; the panic is modelled
as `none`. -/
def format_as_scylla_hexstring (bytes : List Nat) : Option String :=
  if bytes.length = 0 then none
  else
    let hex := joinWith ""
      (bytes.map (fun b =>
        String.mk [Nat.digitChar (b / 16), Nat.digitChar (b % 16)]))
    some ("0x" ++ hex)

/-- `forge_account_upadate_event_query` (name kept verbatim, including the
source's spelling): renders the pushdown query for `AccountUpdate` streams.
A panic from `format_as_scylla_hexstring` (an empty byte key) propagates as
`none`.  The `format!` template is modelled as the concatenation of its
literal segments with the four interpolated values, byte for byte. -/
def forge_account_upadate_event_query (filter : ShardFilter) : Option String :=
  match filter.account_pubkyes.mapM
          (fun pubkey => format_as_scylla_hexstring pubkey),
        filter.account_owners.mapM
          (fun owner => format_as_scylla_hexstring owner) with
  | some pubkeys, some owners =>
    let conds : List String :=
      (if !pubkeys.isEmpty then
        ["AND pubkey IN (" ++ joinWith ", " pubkeys ++ ")"]
      else []) ++
      (if !owners.isEmpty then
        ["AND owner IN (" ++ joinWith ", " owners ++ ")"]
      else [])
    let conds_string := joinWith " " conds
    some ("\n        SELECT\n        " ++ LOG_PROJECTION
      ++ "\n        FROM log\n        WHERE " ++ LOG_PRIMARY_KEY_CONDITION
      ++ "\n        AND event_type = 0\n        " ++ conds_string
      ++ "\n        ORDER BY offset ASC\n        LIMIT "
      ++ toString MICRO_BATCH_SIZE
      ++ "\n        ALLOW FILTERING\n        ")
  | _, _ => none

/-- Index (counting from `i`) of the first suffix of `s` that starts with
`pat`, scanning left to right. -/
def firstOccurFrom (pat : List Char) : List Char → Nat → Option Nat
  | [], i => if pat.isPrefixOf ([] : List Char) then some i else none
  | c :: t, i =>
    if pat.isPrefixOf (c :: t) then some i else firstOccurFrom pat t (i + 1)

/-- Character index of the first occurrence of `pat` in `s`, if any. -/
def substrIdx (s pat : String) : Option Nat :=
  firstOccurFrom pat.data s.data 0

/-- True when `pat` occurs somewhere in `s`. -/
def containsSub (s pat : String) : Bool :=
  (substrIdx s pat).isSome

/-- Number of suffixes of `s` (equivalently, character positions) at which
`pat` occurs. -/
def countOccurIn (pat : List Char) : List Char → Nat
  | [] => if pat.isPrefixOf ([] : List Char) then 1 else 0
  | c :: t =>
    (if pat.isPrefixOf (c :: t) then 1 else 0) + countOccurIn pat t

/-- Number of character positions of `s` at which `pat` occurs. -/
def countOccur (s pat : String) : Nat :=
  countOccurIn pat.data s.data

/-- Total form of the hex rendering: `0x` then two lowercase hex digits per
byte.  Agrees with `format_as_scylla_hexstring` on non-empty byte strings. -/
def hexString (bytes : List Nat) : String :=
  "0x" ++ joinWith ""
    (bytes.map (fun b =>
      String.mk [Nat.digitChar (b / 16), Nat.digitChar (b % 16)]))

/-- The clause the forge renders for a two-element `account_pubkyes` list. -/
def pubkeyClauseOf (p1 p2 : List Nat) : String :=
  "AND pubkey IN (" ++ (hexString p1 ++ ", " ++ hexString p2) ++ ")"

/-- The clause the forge renders for a one-element `account_owners` list. -/
def ownerClauseOf (o : List Nat) : String :=
  "AND owner IN (" ++ hexString o ++ ")"

/-- The fixed part of the rendered query before the filter clauses. -/
def forgedQueryHead : String :=
  "\n        SELECT\n        " ++ LOG_PROJECTION
    ++ "\n        FROM log\n        WHERE " ++ LOG_PRIMARY_KEY_CONDITION
    ++ "\n        AND event_type = 0\n        "

/-- The fixed part of the rendered query after the filter clauses. -/
def forgedQueryTail : String :=
  "\n        ORDER BY offset ASC\n        LIMIT "
    ++ toString MICRO_BATCH_SIZE
    ++ "\n        ALLOW FILTERING\n        "

/-- Concrete `ShardFilter` used to settle the clause-ordering claim:
`account_owners = [[1]]`, `account_pubkeys = [[2], [3]]`. -/
def claim2Filter : ShardFilter :=
  { tx_account_keys := []
    account_owners := [[1]]
    account_pubkyes := [[2], [3]] }

/-- The query the forge renders for `claim2Filter`. -/
def claim2Query : String :=
  (forge_account_upadate_event_query claim2Filter).getD ""

/-- Storage contract on one resolved micro-batch (spec, §2 and §4.2: the
range query returns rows with `offset > last_offset`, ordered by offset
ascending): offsets strictly ascend starting strictly above `last_offset`. -/
def ascFrom (last_offset : Int) : List BlockchainEvent → Bool
  | [] => true
  | e :: rest => decide (last_offset < e.offset) && ascFrom e.offset rest

/-- Storage contract for one `try_next` call: a micro-batch resolved while
`Loading(o)` satisfies `ascFrom o`; every other state/input pair is
unconstrained. -/
def validInput (self : ShardIterator) (input : PollInput) : Bool :=
  match self.inner, input with
  | ShardIteratorState.Loading last_offset, PollInput.batch b =>
    ascFrom last_offset b
  | _, _ => true

/-- Repeated `try_next` calls, one per poll input, collecting the events
returned as `Some` in order; a `bail!` aborts the run. -/
def run (modulo : Int) (self : ShardIterator) :
    List PollInput → Except String (ShardIterator × List BlockchainEvent)
  | [] => .ok (self, [])
  | input :: rest =>
    match self.try_next modulo input with
    | .error e => .error e
    | .ok (next, r) =>
      match run modulo next rest with
      | .error e => .error e
      | .ok (final, evs) => .ok (final, r.toList ++ evs)

/-- The storage contract holds at every step of the run. -/
def validRun (modulo : Int) (self : ShardIterator) : List PollInput → Bool
  | [] => true
  | input :: rest =>
    validInput self input &&
    (match self.try_next modulo input with
     | .error _ => true
     | .ok (next, _) => validRun modulo next rest)

/-- Batch well-formedness carried by a state: a `Loaded`/`Streaming` batch
ascends strictly from the state's offset. -/
def stateBatchOK : ShardIteratorState → Bool
  | ShardIteratorState.Loaded o b => ascFrom o b
  | ShardIteratorState.Streaming o b => ascFrom o b
  | _ => true

/-- Reachability invariant of a `ShardIterator`: non-negative cursor,
well-formed in-memory batch, and `last_period_confirmed` at most the
cursor's period. -/
def Inv (modulo : Int) (self : ShardIterator) : Prop :=
  0 ≤ self.inner.last_offset ∧
  stateBatchOK self.inner = true ∧
  self.last_period_confirmed ≤ self.inner.last_offset / modulo

/-- States whose `try_next` branch polls a `oneshot` receiver. -/
def pollsChannel : ShardIteratorState → Bool
  | ShardIteratorState.Loading _ => true
  | ShardIteratorState.ConfirmingPeriod _ => true
  | ShardIteratorState.WaitingEndOfPeriod _ => true
  | _ => false

instance : IsTrans BlockchainEvent (fun a b => a.offset < b.offset) :=
  ⟨fun _ _ _ h1 h2 => lt_trans h1 h2⟩

/-!  Theorems. -/

set_option maxRecDepth 100000
set_option maxHeartbeats 2000000

theorem filter_row_some {filter : ShardFilter} {row e : BlockchainEvent}
    (h : filter_row filter row = some e) : e = row := by
  simp only [filter_row] at h
  split_ifs at h <;> simp_all

theorem filter_row_cases (filter : ShardFilter) (row : BlockchainEvent) :
    filter_row filter row = some row ∨ filter_row filter row = none := by
  simp only [filter_row]
  split_ifs <;> simp

theorem period_end_div {o m : Int} (hm : 0 < m) :
    ((o / m + 1) * m - 1) / m = o / m := by
  have h1 : (o / m + 1) * m - 1 = (m - 1) + (o / m) * m := by ring
  rw [h1, Int.add_mul_ediv_right _ _ (ne_of_gt hm),
    Int.ediv_eq_zero_of_lt (by omega) (by omega), zero_add]

theorem le_period_end {o m : Int} (hm : 0 < m) :
    o ≤ (o / m + 1) * m - 1 := by
  have := Int.lt_ediv_add_one_mul_self o hm
  omega

theorem try_next_lpc_mono {modulo : Int} {self next : ShardIterator}
    {input : PollInput} {r : Option BlockchainEvent}
    (hl : self.last_period_confirmed ≤ self.inner.last_offset / modulo)
    (hstep : self.try_next modulo input = .ok (next, r)) :
    self.last_period_confirmed ≤ next.last_period_confirmed := by
  obtain ⟨st, lpc, flt⟩ := self
  dsimp only at hl ⊢
  cases st with
  | Empty o =>
    simp only [ShardIterator.try_next, try_next_transition,
      Except.ok.injEq, Prod.mk.injEq] at hstep
    obtain ⟨rfl, -⟩ := hstep
    exact le_refl _
  | Loading o =>
    cases input with
    | closed =>
      simp only [ShardIterator.try_next, try_next_transition] at hstep
      exact Except.noConfusion hstep
    | pending =>
      simp only [ShardIterator.try_next, try_next_transition,
        Except.ok.injEq, Prod.mk.injEq] at hstep
      obtain ⟨rfl, -⟩ := hstep
      exact le_refl _
    | batch b =>
      simp only [ShardIterator.try_next, try_next_transition,
        Except.ok.injEq, Prod.mk.injEq] at hstep
      obtain ⟨rfl, -⟩ := hstep
      exact le_refl _
    | committed c =>
      simp only [ShardIterator.try_next, try_next_transition,
        Except.ok.injEq, Prod.mk.injEq] at hstep
      obtain ⟨rfl, -⟩ := hstep
      exact le_refl _
  | Loaded o batch =>
    cases batch with
    | cons row rest =>
      simp only [ShardIterator.try_next, try_next_transition,
        Except.ok.injEq, Prod.mk.injEq] at hstep
      obtain ⟨rfl, -⟩ := hstep
      exact le_refl _
    | nil =>
      simp only [ShardIterator.try_next, try_next_transition] at hstep
      split_ifs at hstep <;>
        (simp only [Except.ok.injEq, Prod.mk.injEq] at hstep
         obtain ⟨rfl, -⟩ := hstep
         exact le_refl _)
  | ConfirmingPeriod o =>
    cases input with
    | closed =>
      simp only [ShardIterator.try_next, try_next_transition] at hstep
      exact Except.noConfusion hstep
    | pending =>
      simp only [ShardIterator.try_next, try_next_transition,
        Except.ok.injEq, Prod.mk.injEq] at hstep
      obtain ⟨rfl, -⟩ := hstep
      exact le_refl _
    | batch b =>
      simp only [ShardIterator.try_next, try_next_transition,
        Except.ok.injEq, Prod.mk.injEq] at hstep
      obtain ⟨rfl, -⟩ := hstep
      exact le_refl _
    | committed c =>
      cases c with
      | true =>
        simp only [ShardIterator.try_next, try_next_transition, if_true,
          Except.ok.injEq, Prod.mk.injEq] at hstep
        obtain ⟨rfl, -⟩ := hstep
        simpa [ShardIteratorState.last_offset] using hl
      | false =>
        simp only [ShardIterator.try_next, try_next_transition,
          Bool.false_eq_true, if_false, Except.ok.injEq,
          Prod.mk.injEq] at hstep
        obtain ⟨rfl, -⟩ := hstep
        exact le_refl _
  | Streaming o batch =>
    cases batch with
    | cons row rest =>
      simp only [ShardIterator.try_next, try_next_transition,
        Except.ok.injEq, Prod.mk.injEq] at hstep
      obtain ⟨rfl, -⟩ := hstep
      exact le_refl _
    | nil =>
      simp only [ShardIterator.try_next, try_next_transition] at hstep
      split_ifs at hstep <;>
        (simp only [Except.ok.injEq, Prod.mk.injEq] at hstep
         obtain ⟨rfl, -⟩ := hstep
         exact le_refl _)
  | WaitingEndOfPeriod o =>
    cases input with
    | closed =>
      simp only [ShardIterator.try_next, try_next_transition] at hstep
      exact Except.noConfusion hstep
    | pending =>
      simp only [ShardIterator.try_next, try_next_transition,
        Except.ok.injEq, Prod.mk.injEq] at hstep
      obtain ⟨rfl, -⟩ := hstep
      exact le_refl _
    | batch b =>
      simp only [ShardIterator.try_next, try_next_transition,
        Except.ok.injEq, Prod.mk.injEq] at hstep
      obtain ⟨rfl, -⟩ := hstep
      exact le_refl _
    | committed c =>
      cases c with
      | true =>
        simp only [ShardIterator.try_next, try_next_transition, if_true,
          Except.ok.injEq, Prod.mk.injEq] at hstep
        obtain ⟨rfl, -⟩ := hstep
        simpa [ShardIteratorState.last_offset] using hl
      | false =>
        simp only [ShardIterator.try_next, try_next_transition,
          Bool.false_eq_true, if_false, Except.ok.injEq,
          Prod.mk.injEq] at hstep
        obtain ⟨rfl, -⟩ := hstep
        exact le_refl _

theorem try_next_step {modulo : Int} (hm : 0 < modulo)
    {self next : ShardIterator} {input : PollInput}
    {r : Option BlockchainEvent}
    (hinv : Inv modulo self) (hval : validInput self input = true)
    (hstep : self.try_next modulo input = .ok (next, r)) :
    Inv modulo next ∧
    self.inner.last_offset ≤ next.inner.last_offset ∧
    self.last_period_confirmed ≤ next.last_period_confirmed ∧
    ∀ e, r = some e → e.offset = next.inner.last_offset ∧
      self.inner.last_offset < e.offset := by
  obtain ⟨st, lpc, flt⟩ := self
  obtain ⟨h0, hb, hl⟩ := hinv
  have hlpc := try_next_lpc_mono hl hstep
  dsimp only at h0 hb hl hval ⊢
  cases st with
  | Empty o =>
    simp only [ShardIterator.try_next, try_next_transition,
      Except.ok.injEq, Prod.mk.injEq] at hstep
    obtain ⟨rfl, rfl⟩ := hstep
    exact ⟨⟨h0, rfl, hl⟩, le_refl _, hlpc, fun e he => Option.noConfusion he⟩
  | Loading o =>
    cases input with
    | closed =>
      simp only [ShardIterator.try_next, try_next_transition] at hstep
      exact Except.noConfusion hstep
    | pending =>
      simp only [ShardIterator.try_next, try_next_transition,
        Except.ok.injEq, Prod.mk.injEq] at hstep
      obtain ⟨rfl, rfl⟩ := hstep
      exact ⟨⟨h0, rfl, hl⟩, le_refl _, hlpc, fun e he => Option.noConfusion he⟩
    | batch b =>
      simp only [ShardIterator.try_next, try_next_transition,
        Except.ok.injEq, Prod.mk.injEq] at hstep
      obtain ⟨rfl, rfl⟩ := hstep
      exact ⟨⟨h0, hval, hl⟩, le_refl _, hlpc, fun e he => Option.noConfusion he⟩
    | committed c =>
      simp only [ShardIterator.try_next, try_next_transition,
        Except.ok.injEq, Prod.mk.injEq] at hstep
      obtain ⟨rfl, rfl⟩ := hstep
      exact ⟨⟨h0, rfl, hl⟩, le_refl _, hlpc, fun e he => Option.noConfusion he⟩
  | Loaded o batch =>
    cases batch with
    | cons row rest =>
      simp only [ShardIterator.try_next, try_next_transition,
        Except.ok.injEq, Prod.mk.injEq] at hstep
      obtain ⟨rfl, rfl⟩ := hstep
      simp only [stateBatchOK, ascFrom, Bool.and_eq_true,
        decide_eq_true_eq] at hb
      refine ⟨⟨le_trans h0 hb.1.le, hb.2, ?_⟩, hb.1.le, hlpc, ?_⟩
      · exact le_trans hl (Int.ediv_le_ediv hm hb.1.le)
      · intro e he
        have he2 := filter_row_some he
        subst he2
        exact ⟨rfl, hb.1⟩
    | nil =>
      simp only [ShardIterator.try_next, try_next_transition] at hstep
      split_ifs at hstep with hc
      · simp only [Except.ok.injEq, Prod.mk.injEq] at hstep
        obtain ⟨rfl, rfl⟩ := hstep
        refine ⟨⟨le_trans h0 (le_period_end hm), rfl, ?_⟩,
          le_period_end hm, hlpc, fun e he => Option.noConfusion he⟩
        dsimp only [ShardIteratorState.last_offset]
        rw [period_end_div hm]
        exact hl
      · simp only [Except.ok.injEq, Prod.mk.injEq] at hstep
        obtain ⟨rfl, rfl⟩ := hstep
        exact ⟨⟨h0, rfl, hl⟩, le_refl _, hlpc,
          fun e he => Option.noConfusion he⟩
  | ConfirmingPeriod o =>
    cases input with
    | closed =>
      simp only [ShardIterator.try_next, try_next_transition] at hstep
      exact Except.noConfusion hstep
    | pending =>
      simp only [ShardIterator.try_next, try_next_transition,
        Except.ok.injEq, Prod.mk.injEq] at hstep
      obtain ⟨rfl, rfl⟩ := hstep
      exact ⟨⟨h0, rfl, hl⟩, le_refl _, hlpc, fun e he => Option.noConfusion he⟩
    | batch b =>
      simp only [ShardIterator.try_next, try_next_transition,
        Except.ok.injEq, Prod.mk.injEq] at hstep
      obtain ⟨rfl, rfl⟩ := hstep
      exact ⟨⟨h0, rfl, hl⟩, le_refl _, hlpc, fun e he => Option.noConfusion he⟩
    | committed c =>
      cases c with
      | true =>
        simp only [ShardIterator.try_next, try_next_transition, if_true,
          Except.ok.injEq, Prod.mk.injEq] at hstep
        obtain ⟨rfl, rfl⟩ := hstep
        exact ⟨⟨h0, rfl, le_refl _⟩, le_refl _, hlpc,
          fun e he => Option.noConfusion he⟩
      | false =>
        simp only [ShardIterator.try_next, try_next_transition,
          Bool.false_eq_true, if_false, Except.ok.injEq,
          Prod.mk.injEq] at hstep
        obtain ⟨rfl, rfl⟩ := hstep
        exact ⟨⟨h0, rfl, hl⟩, le_refl _, hlpc,
          fun e he => Option.noConfusion he⟩
  | Streaming o batch =>
    cases batch with
    | cons row rest =>
      simp only [ShardIterator.try_next, try_next_transition,
        Except.ok.injEq, Prod.mk.injEq] at hstep
      obtain ⟨rfl, rfl⟩ := hstep
      simp only [stateBatchOK, ascFrom, Bool.and_eq_true,
        decide_eq_true_eq] at hb
      refine ⟨⟨le_trans h0 hb.1.le, hb.2, ?_⟩, hb.1.le, hlpc, ?_⟩
      · exact le_trans hl (Int.ediv_le_ediv hm hb.1.le)
      · intro e he
        have he2 := filter_row_some he
        subst he2
        exact ⟨rfl, hb.1⟩
    | nil =>
      simp only [ShardIterator.try_next, try_next_transition] at hstep
      split_ifs at hstep with hc
      · simp only [Except.ok.injEq, Prod.mk.injEq] at hstep
        obtain ⟨rfl, rfl⟩ := hstep
        exact ⟨⟨h0, rfl, hl⟩, le_refl _, hlpc,
          fun e he => Option.noConfusion he⟩
      · simp only [Except.ok.injEq, Prod.mk.injEq] at hstep
        obtain ⟨rfl, rfl⟩ := hstep
        exact ⟨⟨h0, rfl, hl⟩, le_refl _, hlpc,
          fun e he => Option.noConfusion he⟩
  | WaitingEndOfPeriod o =>
    cases input with
    | closed =>
      simp only [ShardIterator.try_next, try_next_transition] at hstep
      exact Except.noConfusion hstep
    | pending =>
      simp only [ShardIterator.try_next, try_next_transition,
        Except.ok.injEq, Prod.mk.injEq] at hstep
      obtain ⟨rfl, rfl⟩ := hstep
      exact ⟨⟨h0, rfl, hl⟩, le_refl _, hlpc, fun e he => Option.noConfusion he⟩
    | batch b =>
      simp only [ShardIterator.try_next, try_next_transition,
        Except.ok.injEq, Prod.mk.injEq] at hstep
      obtain ⟨rfl, rfl⟩ := hstep
      exact ⟨⟨h0, rfl, hl⟩, le_refl _, hlpc, fun e he => Option.noConfusion he⟩
    | committed c =>
      cases c with
      | true =>
        simp only [ShardIterator.try_next, try_next_transition, if_true,
          Except.ok.injEq, Prod.mk.injEq] at hstep
        obtain ⟨rfl, rfl⟩ := hstep
        exact ⟨⟨h0, rfl, le_refl _⟩, le_refl _, hlpc,
          fun e he => Option.noConfusion he⟩
      | false =>
        simp only [ShardIterator.try_next, try_next_transition,
          Bool.false_eq_true, if_false, Except.ok.injEq,
          Prod.mk.injEq] at hstep
        obtain ⟨rfl, rfl⟩ := hstep
        exact ⟨⟨h0, rfl, hl⟩, le_refl _, hlpc,
          fun e he => Option.noConfusion he⟩

theorem run_props {modulo : Int} (hm : 0 < modulo) :
    ∀ (inputs : List PollInput) (self : ShardIterator),
      Inv modulo self → validRun modulo self inputs = true →
      ∀ final evs, run modulo self inputs = .ok (final, evs) →
        List.Chain' (fun a b => a.offset < b.offset) evs ∧
        (∀ e ∈ evs, self.inner.last_offset < e.offset) ∧
        self.inner.last_offset ≤ final.inner.last_offset ∧
        self.last_period_confirmed ≤ final.last_period_confirmed ∧
        Inv modulo final := by
  intro inputs
  induction inputs with
  | nil =>
    intro self hinv hval final evs hrun
    simp only [run, Except.ok.injEq, Prod.mk.injEq] at hrun
    obtain ⟨rfl, rfl⟩ := hrun
    exact ⟨List.chain'_nil, by simp, le_refl _, le_refl _, hinv⟩
  | cons input rest ih =>
    intro self hinv hval final evs hrun
    simp only [validRun, Bool.and_eq_true] at hval
    obtain ⟨hv1, hv2⟩ := hval
    simp only [run] at hrun
    cases hstep : self.try_next modulo input with
    | error e =>
      rw [hstep] at hrun
      exact Except.noConfusion hrun
    | ok p =>
      obtain ⟨next, r⟩ := p
      rw [hstep] at hrun hv2
      dsimp only at hrun hv2
      cases hrest : run modulo next rest with
      | error e =>
        rw [hrest] at hrun
        exact Except.noConfusion hrun
      | ok q =>
        obtain ⟨final2, evs2⟩ := q
        rw [hrest] at hrun
        simp only [Except.ok.injEq, Prod.mk.injEq] at hrun
        obtain ⟨rfl, rfl⟩ := hrun
        obtain ⟨hinv2, hoff, hlpc2, hemit⟩ := try_next_step hm hinv hv1 hstep
        obtain ⟨hchain, hlow, hoff2, hlpc3, hinvf⟩ :=
          ih next hinv2 hv2 final2 evs2 hrest
        cases r with
        | none =>
          simp only [Option.toList, List.nil_append]
          refine ⟨hchain, ?_, le_trans hoff hoff2,
            le_trans hlpc2 hlpc3, hinvf⟩
          intro e he
          exact lt_of_le_of_lt hoff (hlow e he)
        | some ev =>
          obtain ⟨heo, hgt⟩ := hemit ev rfl
          simp only [Option.toList, List.singleton_append]
          refine ⟨?_, ?_, le_trans hoff hoff2, le_trans hlpc2 hlpc3, hinvf⟩
          · rw [List.chain'_cons']
            refine ⟨?_, hchain⟩
            intro y hy
            have hymem := List.mem_of_mem_head? hy
            have hy2 := hlow y hymem
            rw [heo]
            exact hy2
          · intro e he
            rcases List.mem_cons.mp he with rfl | hmem
            · exact hgt
            · exact lt_of_le_of_lt hoff (hlow e hmem)

theorem format_as_scylla_hexstring_eq {bytes : List Nat} (h : bytes ≠ []) :
    format_as_scylla_hexstring bytes = some (hexString bytes) := by
  unfold format_as_scylla_hexstring hexString
  rw [if_neg]
  simpa [List.length_eq_zero] using h

theorem forge_eq_of_mapM {filter : ShardFilter} {pubkeys owners : List String}
    (hp : filter.account_pubkyes.mapM
        (fun pubkey => format_as_scylla_hexstring pubkey) = some pubkeys)
    (ho : filter.account_owners.mapM
        (fun owner => format_as_scylla_hexstring owner) = some owners) :
    forge_account_upadate_event_query filter =
      some (forgedQueryHead
        ++ joinWith " "
          ((if !pubkeys.isEmpty then
              ["AND pubkey IN (" ++ joinWith ", " pubkeys ++ ")"]
            else []) ++
           (if !owners.isEmpty then
              ["AND owner IN (" ++ joinWith ", " owners ++ ")"]
            else []))
        ++ forgedQueryTail) := by
  unfold forge_account_upadate_event_query forgedQueryHead forgedQueryTail
  rw [hp, ho]
  simp [String.append_assoc]

/-- C2, counterexample: for the filter with `account_owners = [[1]]` and
`account_pubkeys = [[2], [3]]`, the forged query contains each clause exactly
once, the pubkey clause at character index 625 and the owner clause at
character index 652 — so the owner clause does NOT appear before the pubkey
clause, refuting the claimed clause order. -/
theorem claim2_counterexample :
    forge_account_upadate_event_query claim2Filter = some claim2Query ∧
    countOccur claim2Query "AND owner IN (0x01)" = 1 ∧
    countOccur claim2Query "AND pubkey IN (0x02, 0x03)" = 1 ∧
    substrIdx claim2Query "AND owner IN (0x01)" = some 652 ∧
    substrIdx claim2Query "AND pubkey IN (0x02, 0x03)" = some 625 ∧
    ¬(652 : Nat) < 625 := by
  refine ⟨rfl, by decide, by decide, by decide, by decide, by decide⟩

/-- C2, amended: for a `ShardFilter` with `account_owners = [O]` and
`account_pubkeys = [P1, P2]` (non-empty byte keys), the forged query contains
exactly the clauses `AND pubkey IN (0x<hex P1>, 0x<hex P2>)` and
`AND owner IN (0x<hex O>)`, with the PUBKEY clause appearing before the OWNER
clause (adjacent, separated by one space); for an empty filter the query
contains no `AND ` other than the `AND event_type = 0` condition. -/
theorem claim2_forged_query_clause_order (O P1 P2 : List Nat)
    (ks : List (List Nat)) (hO : O ≠ []) (h1 : P1 ≠ []) (h2 : P2 ≠ []) :
    (∃ a c,
      forge_account_upadate_event_query
          { tx_account_keys := ks, account_owners := [O],
            account_pubkyes := [P1, P2] } =
        some (a ++ (pubkeyClauseOf P1 P2 ++ " " ++ ownerClauseOf O) ++ c)) ∧
    (∀ q, forge_account_upadate_event_query {} = some q →
      countOccur q "AND " = 1 ∧ containsSub q "AND owner" = false ∧
        containsSub q "AND pubkey" = false) := by
  constructor
  · have hp : List.mapM (fun pubkey => format_as_scylla_hexstring pubkey)
        [P1, P2] = some [hexString P1, hexString P2] := by
      rw [List.mapM_cons, List.mapM_cons, List.mapM_nil,
        format_as_scylla_hexstring_eq h1, format_as_scylla_hexstring_eq h2]
      rfl
    have ho : List.mapM (fun owner => format_as_scylla_hexstring owner)
        [O] = some [hexString O] := by
      rw [List.mapM_cons, List.mapM_nil, format_as_scylla_hexstring_eq hO]
      rfl
    refine ⟨forgedQueryHead, forgedQueryTail, ?_⟩
    rw [forge_eq_of_mapM hp ho]
    simp [joinWith, pubkeyClauseOf, ownerClauseOf, String.append_assoc]
  · intro q hq
    have hempty : forge_account_upadate_event_query {} =
        some (forgedQueryHead ++ "" ++ forgedQueryTail) := by decide
    rw [hempty, Option.some.injEq] at hq
    subst hq
    refine ⟨by decide, by decide, by decide⟩

/-- C2, witness for the amended claim at `O = [1]`, `P1 = [2]`, `P2 = [3]`. -/
theorem claim2_forged_query_clause_order_witness :
    (∃ a c,
      forge_account_upadate_event_query
          { tx_account_keys := [], account_owners := [[1]],
            account_pubkyes := [[2], [3]] } =
        some (a ++ (pubkeyClauseOf [2] [3] ++ " " ++ ownerClauseOf [1]) ++ c)) ∧
    (∀ q, forge_account_upadate_event_query {} = some q →
      countOccur q "AND " = 1 ∧ containsSub q "AND owner" = false ∧
        containsSub q "AND pubkey" = false) :=
  claim2_forged_query_clause_order [1] [2] [3] []
    (by decide) (by decide) (by decide)

/-- C3, counterexample: the `NewTransaction` fetch query text
(`GET_NEW_TRANSACTION_EVENT`) contains no `LIMIT` clause at all, refuting the
claim that both event types' query texts impose a row limit of 40. -/
theorem claim3_counterexample :
    containsSub GET_NEW_TRANSACTION_EVENT "LIMIT 40" = false ∧
    containsSub GET_NEW_TRANSACTION_EVENT "LIMIT" = false := by
  refine ⟨by decide, by decide⟩

/-- C3, amended: every query the forge renders for `AccountUpdate` streams
carries `LIMIT 40` (`MICRO_BATCH_SIZE = 40`), while the static
`NewTransaction` query text imposes no row limit. -/
theorem claim3_account_update_limit_forty (filter : ShardFilter) (q : String)
    (h : forge_account_upadate_event_query filter = some q) :
    (∃ a c, q = a ++ ("LIMIT " ++ toString MICRO_BATCH_SIZE) ++ c) ∧
    toString MICRO_BATCH_SIZE = "40" ∧
    containsSub GET_NEW_TRANSACTION_EVENT "LIMIT" = false := by
  refine ⟨?_, by decide, by decide⟩
  rcases hp : filter.account_pubkyes.mapM
      (fun pubkey => format_as_scylla_hexstring pubkey) with _ | pubkeys
  · unfold forge_account_upadate_event_query at h
    rw [hp] at h
    simp at h
  rcases ho : filter.account_owners.mapM
      (fun owner => format_as_scylla_hexstring owner) with _ | owners
  · unfold forge_account_upadate_event_query at h
    rw [hp, ho] at h
    simp at h
  rw [forge_eq_of_mapM hp ho, Option.some.injEq] at h
  subst h
  refine ⟨forgedQueryHead
      ++ joinWith " "
        ((if !pubkeys.isEmpty then
            ["AND pubkey IN (" ++ joinWith ", " pubkeys ++ ")"]
          else []) ++
         (if !owners.isEmpty then
            ["AND owner IN (" ++ joinWith ", " owners ++ ")"]
          else []))
      ++ "\n        ORDER BY offset ASC\n        ",
    "\n        ALLOW FILTERING\n        ", ?_⟩
  rw [show forgedQueryTail =
      "\n        ORDER BY offset ASC\n        "
        ++ ("LIMIT " ++ toString MICRO_BATCH_SIZE)
        ++ "\n        ALLOW FILTERING\n        " from by decide]
  simp [String.append_assoc]

/-- C3, witness for the amended claim at the empty filter. -/
theorem claim3_account_update_limit_forty_witness :
    (∃ a c, (forgedQueryHead ++ "" ++ forgedQueryTail : String) =
      a ++ ("LIMIT " ++ toString MICRO_BATCH_SIZE) ++ c) ∧
    toString MICRO_BATCH_SIZE = "40" ∧
    containsSub GET_NEW_TRANSACTION_EVENT "LIMIT" = false :=
  claim3_account_update_limit_forty {} (forgedQueryHead ++ "" ++ forgedQueryTail)
    (by decide)


theorem isEmpty_false_of_ne_nil {α : Type} {l : List α} (h : l ≠ []) :
    l.isEmpty = false := by
  cases l with
  | nil => exact absurd rfl h
  | cons a as => rfl

theorem filter_row_keep_iff {flt : ShardFilter} {e : BlockchainEvent}
    (ht : e.event_type = BlockchainEventType.newTransaction)
    (hk : flt.tx_account_keys ≠ []) :
    filter_row flt e = some e ↔
      ∃ ks, e.account_keys = some ks ∧ ∃ k ∈ ks,
        k ∈ flt.tx_account_keys := by
  have hk2 := isEmpty_false_of_ne_nil hk
  cases hak : e.account_keys with
  | none =>
    simp [filter_row, ht, hak, hk2]
  | some ks =>
    simp [filter_row, ht, hak, hk2, Option.filter, List.find?_isSome,
      List.contains, List.elem_iff]
    split_ifs with hsp <;> simp [hsp]

/-- C1: under the storage contract (each resolved micro-batch ascends
strictly from the offset its fetch was dispatched with), the events a run of
`try_next` calls returns as `Some` carry strictly increasing offsets — no
duplicates, no reordering — and the cursor (the state's `last_offset`) never
moves backwards. -/
theorem claim1_yielded_offsets_strictly_increasing (modulo : Int)
    (hm : 0 < modulo) (start : Int) (hs : 0 ≤ start)
    (filter : Option ShardFilter) (inputs : List PollInput)
    (final : ShardIterator) (evs : List BlockchainEvent)
    (hval : validRun modulo (ShardIterator.new modulo start filter) inputs =
      true)
    (hrun : run modulo (ShardIterator.new modulo start filter) inputs =
      .ok (final, evs)) :
    List.Chain' (fun a b => a.offset < b.offset) evs ∧
    List.Pairwise (fun a b => a.offset < b.offset) evs ∧
    (∀ e ∈ evs, start < e.offset) ∧
    (ShardIterator.new modulo start filter).last_offset ≤
      final.last_offset := by
  have hinv : Inv modulo (ShardIterator.new modulo start filter) :=
    ⟨hs, rfl, sub_le_self _ zero_le_one⟩
  obtain ⟨hchain, hlow, hoff, -, -⟩ :=
    run_props hm inputs _ hinv hval final evs hrun
  exact ⟨hchain, List.chain'_iff_pairwise.mp hchain, hlow, hoff⟩

/-- C1, witness: a three-call run (dispatch fetch, resolve a one-row batch,
pop the row) yields exactly the row with offset 5. -/
theorem claim1_yielded_offsets_strictly_increasing_witness :
    validRun 80 (ShardIterator.new 80 0 none)
      [PollInput.pending,
       PollInput.batch [⟨5, BlockchainEventType.newTransaction, none⟩],
       PollInput.pending] = true ∧
    (List.Chain' (fun a b => a.offset < b.offset)
      [(⟨5, BlockchainEventType.newTransaction, none⟩ : BlockchainEvent)] ∧
     List.Pairwise (fun a b => a.offset < b.offset)
      [(⟨5, BlockchainEventType.newTransaction, none⟩ : BlockchainEvent)] ∧
     (∀ e ∈ [(⟨5, BlockchainEventType.newTransaction, none⟩ :
        BlockchainEvent)], (0 : Int) < e.offset) ∧
     (ShardIterator.new 80 0 none).last_offset ≤
       (ShardIterator.mk (ShardIteratorState.Streaming 5 []) (-1)
         {}).last_offset) :=
  ⟨by decide,
   claim1_yielded_offsets_strictly_increasing 80 (by decide) 0 (by decide)
     none
     [PollInput.pending,
      PollInput.batch [⟨5, BlockchainEventType.newTransaction, none⟩],
      PollInput.pending]
     ⟨ShardIteratorState.Streaming 5 [], -1, {}⟩
     [⟨5, BlockchainEventType.newTransaction, none⟩]
     (by decide) (by rfl)⟩

/-- C4: `try_next` on `Loaded(o, [])` short-circuits to
`Empty((o / m + 1) * m - 1)` (no commit check dispatched — the next state is
not `ConfirmingPeriod`) exactly when `o / m ≤ last_period_confirmed`, and
dispatches a commit check (state `ConfirmingPeriod(o)`) exactly when
`o / m > last_period_confirmed`; both branches return `None`; and across any
`try_next` call from an invariant-satisfying iterator,
`last_period_confirmed` never decreases. -/
theorem claim4_loaded_empty_dispatch (modulo lpc o : Int)
    (flt : ShardFilter) (input : PollInput) :
    ((o / modulo ≤ lpc →
      (ShardIterator.mk (ShardIteratorState.Loaded o []) lpc flt).try_next
          modulo input =
        .ok (⟨ShardIteratorState.Empty ((o / modulo + 1) * modulo - 1), lpc,
          flt⟩, none)) ∧
     (lpc < o / modulo →
      (ShardIterator.mk (ShardIteratorState.Loaded o []) lpc flt).try_next
          modulo input =
        .ok (⟨ShardIteratorState.ConfirmingPeriod o, lpc, flt⟩, none))) ∧
    (∀ (self next : ShardIterator) (inp : PollInput)
        (r : Option BlockchainEvent), Inv modulo self →
      self.try_next modulo inp = .ok (next, r) →
      self.last_period_confirmed ≤ next.last_period_confirmed) := by
  refine ⟨⟨?_, ?_⟩, ?_⟩
  · intro hc
    simp only [ShardIterator.try_next, try_next_transition, if_pos hc]
    rfl
  · intro hc
    simp only [ShardIterator.try_next, try_next_transition,
      if_neg (not_le.mpr hc)]
    rfl
  · intro self next inp r hinv hstep
    exact try_next_lpc_mono hinv.2.2 hstep

/-- C4, witness: the spec scenario `o = 79`, `m = 80`: with
`last_period_confirmed = -1` (period 0 unconfirmed) the empty batch routes to
`ConfirmingPeriod`, with `last_period_confirmed = 0` it short-circuits to
`Empty(79)`. -/
theorem claim4_loaded_empty_dispatch_witness :
    (ShardIterator.mk (ShardIteratorState.Loaded 79 []) (-1) {}).try_next 80
        PollInput.pending =
      .ok (⟨ShardIteratorState.ConfirmingPeriod 79, -1, {}⟩, none) ∧
    (ShardIterator.mk (ShardIteratorState.Loaded 79 []) 0 {}).try_next 80
        PollInput.pending =
      .ok (⟨ShardIteratorState.Empty 79, 0, {}⟩, none) :=
  ⟨(claim4_loaded_empty_dispatch 80 (-1) 79 {} PollInput.pending).1.2
      (by decide),
   by
     have h := (claim4_loaded_empty_dispatch 80 0 79 {} PollInput.pending).1.1
       (by decide)
     rw [show ((79 : Int) / 80 + 1) * 80 - 1 = 79 from by decide] at h
     exact h⟩

/-- C5: `try_next` on `Streaming(o, [])` moves to `WaitingEndOfPeriod(o)`
(dispatching a commit check) exactly when `(o + 1) % m = 0`, and to
`Empty(o)` otherwise; both return `None`. -/
theorem claim5_streaming_exhausted_boundary (modulo lpc o : Int)
    (flt : ShardFilter) (input : PollInput) :
    (ShardIterator.mk (ShardIteratorState.Streaming o []) lpc flt).try_next
        modulo input =
      .ok (⟨if (o + 1) % modulo = 0 then
              ShardIteratorState.WaitingEndOfPeriod o
            else ShardIteratorState.Empty o, lpc, flt⟩, none) := by
  simp only [ShardIterator.try_next, try_next_transition]
  split_ifs <;> rfl

/-- C6: an unresolved commit never strands the iterator —
`WaitingEndOfPeriod(o)` resolving not-committed re-issues the check and stays
at the same offset, resolving committed moves to `Empty(o)` with
`last_period_confirmed = o / m`; `ConfirmingPeriod(o)` always falls back to
`Empty(o)` (updating `last_period_confirmed` only when committed); and from
`Empty(o)` the next call always dispatches a fresh fetch at the same
offset. -/
theorem claim6_commit_check_liveness (modulo lpc o : Int)
    (flt : ShardFilter) :
    ((ShardIterator.mk (ShardIteratorState.WaitingEndOfPeriod o) lpc
        flt).try_next modulo (PollInput.committed false) =
      .ok (⟨ShardIteratorState.WaitingEndOfPeriod o, lpc, flt⟩, none)) ∧
    ((ShardIterator.mk (ShardIteratorState.WaitingEndOfPeriod o) lpc
        flt).try_next modulo (PollInput.committed true) =
      .ok (⟨ShardIteratorState.Empty o, o / modulo, flt⟩, none)) ∧
    (∀ c : Bool,
      (ShardIterator.mk (ShardIteratorState.ConfirmingPeriod o) lpc
          flt).try_next modulo (PollInput.committed c) =
        .ok (⟨ShardIteratorState.Empty o,
          if c then o / modulo else lpc, flt⟩, none)) ∧
    (∀ input,
      (ShardIterator.mk (ShardIteratorState.Empty o) lpc flt).try_next
          modulo input =
        .ok (⟨ShardIteratorState.Loading o, lpc, flt⟩, none)) := by
  refine ⟨rfl, rfl, ?_, fun _ => rfl⟩
  intro c
  cases c <;> rfl

/-- C8: popping a row from a `Loaded` or `Streaming` batch always installs
`Streaming(row.offset, rest)` — the same next state whether or not the
residual filter accepts the row — and the returned value is exactly
`filter_row` of the popped row, which is either the row itself or `None`. -/
theorem claim8_filter_never_stalls_cursor (modulo lpc o : Int)
    (flt : ShardFilter) (row : BlockchainEvent)
    (rest : List BlockchainEvent) (input : PollInput) :
    ((ShardIterator.mk (ShardIteratorState.Loaded o (row :: rest)) lpc
        flt).try_next modulo input =
      .ok (⟨ShardIteratorState.Streaming row.offset rest, lpc, flt⟩,
        filter_row flt row)) ∧
    ((ShardIterator.mk (ShardIteratorState.Streaming o (row :: rest)) lpc
        flt).try_next modulo input =
      .ok (⟨ShardIteratorState.Streaming row.offset rest, lpc, flt⟩,
        filter_row flt row)) ∧
    (filter_row flt row = some row ∨ filter_row flt row = none) :=
  ⟨rfl, rfl, filter_row_cases flt row⟩

/-- C9: `try_next` returns an error exactly when the polled completion
channel is found closed (a `closed` poll outcome in a receiver-holding
state); a merely-unresolved channel (`pending`) returns `Ok(None)` and leaves
the iterator unchanged; empty batches and unconfirmed periods never error. -/
theorem claim9_fatal_iff_closed (modulo : Int) (self : ShardIterator)
    (input : PollInput) :
    ((∃ msg, self.try_next modulo input = .error msg) ↔
      (input = PollInput.closed ∧ pollsChannel self.inner = true)) ∧
    (pollsChannel self.inner = true →
      self.try_next modulo PollInput.pending = .ok (self, none)) := by
  obtain ⟨st, lpc, flt⟩ := self
  constructor
  · cases st with
    | Empty o =>
      cases input <;>
        simp [ShardIterator.try_next, try_next_transition, pollsChannel]
    | Loading o =>
      cases input <;>
        simp [ShardIterator.try_next, try_next_transition, pollsChannel]
    | Loaded o batch =>
      cases batch with
      | cons row rest =>
        cases input <;>
          simp [ShardIterator.try_next, try_next_transition, pollsChannel]
      | nil =>
        cases input <;>
          (simp only [ShardIterator.try_next, try_next_transition,
            pollsChannel]
           split_ifs <;> simp)
    | ConfirmingPeriod o =>
      cases input with
      | pending =>
        simp [ShardIterator.try_next, try_next_transition, pollsChannel]
      | closed =>
        simp [ShardIterator.try_next, try_next_transition, pollsChannel]
      | batch b =>
        simp [ShardIterator.try_next, try_next_transition, pollsChannel]
      | committed c =>
        cases c <;>
          simp [ShardIterator.try_next, try_next_transition, pollsChannel]
    | Streaming o batch =>
      cases batch with
      | cons row rest =>
        cases input <;>
          simp [ShardIterator.try_next, try_next_transition, pollsChannel]
      | nil =>
        cases input <;>
          (simp only [ShardIterator.try_next, try_next_transition,
            pollsChannel]
           split_ifs <;> simp)
    | WaitingEndOfPeriod o =>
      cases input with
      | pending =>
        simp [ShardIterator.try_next, try_next_transition, pollsChannel]
      | closed =>
        simp [ShardIterator.try_next, try_next_transition, pollsChannel]
      | batch b =>
        simp [ShardIterator.try_next, try_next_transition, pollsChannel]
      | committed c =>
        cases c <;>
          simp [ShardIterator.try_next, try_next_transition, pollsChannel]
  · intro h
    cases st with
    | Loading o => rfl
    | ConfirmingPeriod o => rfl
    | WaitingEndOfPeriod o => rfl
    | Empty o => simp [pollsChannel] at h
    | Loaded o batch => simp [pollsChannel] at h
    | Streaming o batch => simp [pollsChannel] at h

/-- C9, witness: in `Loading`, a closed channel errors and a pending channel
returns `Ok(None)` leaving the state untouched. -/
theorem claim9_fatal_iff_closed_witness :
    (∃ msg, (ShardIterator.mk (ShardIteratorState.Loading 0) (-1)
        {}).try_next 80 PollInput.closed = .error msg) ∧
    ((ShardIterator.mk (ShardIteratorState.Loading 0) (-1) {}).try_next 80
        PollInput.pending =
      .ok (ShardIterator.mk (ShardIteratorState.Loading 0) (-1) {}, none)) :=
  ⟨(claim9_fatal_iff_closed 80
      ⟨ShardIteratorState.Loading 0, -1, {}⟩ PollInput.closed).1.mpr
      ⟨rfl, rfl⟩,
   (claim9_fatal_iff_closed 80
      ⟨ShardIteratorState.Loading 0, -1, {}⟩ PollInput.pending).2 rfl⟩

/-- C7: the residual filter is a pure function of `(event, filter)`: it
passes every `AccountUpdate` event unchanged, passes everything unchanged
when `tx_account_keys` is empty, and for a `NewTransaction` event with a
non-empty `tx_account_keys` it keeps the event (unchanged) exactly when the
event carries an account-key list intersecting `tx_account_keys`; it never
returns anything but the event itself or `None`. -/
theorem claim7_residual_filter_pure (flt : ShardFilter)
    (e : BlockchainEvent) :
    (e.event_type = BlockchainEventType.accountUpdate →
      filter_row flt e = some e) ∧
    (flt.tx_account_keys = [] → filter_row flt e = some e) ∧
    (e.event_type = BlockchainEventType.newTransaction →
      flt.tx_account_keys ≠ [] →
      ((filter_row flt e = some e ↔
        ∃ ks, e.account_keys = some ks ∧ ∃ k ∈ ks,
          k ∈ flt.tx_account_keys) ∧
       (filter_row flt e = some e ∨ filter_row flt e = none))) := by
  refine ⟨?_, ?_, ?_⟩
  · intro h
    simp [filter_row, h]
  · intro h
    simp [filter_row, h]
  · intro ht hk
    exact ⟨filter_row_keep_iff ht hk, filter_row_cases flt e⟩

/-- C7, witness: a `NewTransaction` event whose key list shares the key
`[7]` with the filter is kept unchanged. -/
theorem claim7_residual_filter_pure_witness :
    filter_row { tx_account_keys := [[7]] }
        ⟨1, BlockchainEventType.newTransaction, some [[7], [9]]⟩ =
      some ⟨1, BlockchainEventType.newTransaction, some [[7], [9]]⟩ :=
  ((claim7_residual_filter_pure { tx_account_keys := [[7]] }
      ⟨1, BlockchainEventType.newTransaction, some [[7], [9]]⟩).2.2 rfl
      (by decide)).1.mpr ⟨[[7], [9]], rfl, [7], by decide, by decide⟩

/-- C10: with a non-empty `tx_account_keys`, a `NewTransaction` event whose
optional `account_keys` field is absent is dropped by the residual filter,
and only events carrying a list containing at least one filter key are
kept. -/
theorem claim10_absent_keys_dropped (flt : ShardFilter)
    (e : BlockchainEvent) (hk : flt.tx_account_keys ≠ [])
    (ht : e.event_type = BlockchainEventType.newTransaction) :
    (e.account_keys = none → filter_row flt e = none) ∧
    ∀ e2, filter_row flt e = some e2 →
      e2 = e ∧ ∃ ks, e.account_keys = some ks ∧ ∃ k ∈ ks,
        k ∈ flt.tx_account_keys := by
  have hk2 := isEmpty_false_of_ne_nil hk
  constructor
  · intro hak
    simp [filter_row, ht, hak, hk2]
  · intro e2 h2
    have he := filter_row_some h2
    subst he
    exact ⟨rfl, (filter_row_keep_iff ht hk).mp h2⟩

/-- C10, witness: the filter `{tx_account_keys = [[7]]}` drops the
`NewTransaction` event with absent `account_keys`. -/
theorem claim10_absent_keys_dropped_witness :
    filter_row { tx_account_keys := [[7]] }
        ⟨1, BlockchainEventType.newTransaction, none⟩ = none :=
  (claim10_absent_keys_dropped { tx_account_keys := [[7]] }
      ⟨1, BlockchainEventType.newTransaction, none⟩ (by decide) rfl).1 rfl

end Yellowstone
